import Mathlib

/-!
Shallow embedding of `rainze_core/src/memory_search.rs` (the `VectorIndex`
wrapper around a FAISS flat inner-product index) together with a model of the
underlying flat index, and proofs of the specified properties.

Conventions of the embedding:
* `f32` values are modelled exactly by `ℚ`: the only operations the flat
  inner-product index performs on scalars are multiplication, addition and
  order comparison.
* The FAISS library itself (`index_factory`, `Index::add`, `Index::search`,
  `Index::reset`, `write_index`, `read_index`) is not part of this
  repository's sources; those parts are modelled from the specification and
  are marked `Modelled from the spec:` below.  The wrapper logic (dimension
  validation, ID-range construction, result assembly) is translated from the
  Rust source.
* The mutex never fails in this sequential embedding, so lock-poisoning
  errors do not arise; mutation is explicit state passing.
* The filesystem is external: `save` produces the byte-level content
  (`IndexFile`) that would be written at the path, and `load` consumes it.
-/

namespace Rainze

/-- Scalar type of vector components (`f32` in the source, modelled exactly). -/
abbrev F := ℚ

/-- The FAISS metric type; the source always uses `MetricType::InnerProduct`. -/
inductive MetricType where
  | innerProductMetric
  | l2Metric
deriving DecidableEq

/-- Modelled from the spec: the state of the underlying FAISS flat index
(`faiss::index::IndexImpl`), which is external library code not under this
repository's sources.  Per the spec, it owns a growable ordered sequence of
fixed-dimension vectors (spec section 3) and a similarity metric. -/
structure IndexImpl where
  d : ℕ
  metric : MetricType
  vectors : List (List F)
deriving DecidableEq

/-- Modelled from the spec: `Index::ntotal`, the number of stored vectors
(`count` is the length of `vectors`, spec section 3). -/
def IndexImpl.ntotal (idx : IndexImpl) : ℕ := idx.vectors.length

/-- Splits a flat row-major buffer into rows of length `d` (how FAISS
interprets the flat slice passed to `add`). -/
def chunks (d : ℕ) (xs : List F) : List (List F) :=
  if h : d = 0 ∨ xs = [] then [] else xs.take d :: chunks d (xs.drop d)
termination_by xs.length
decreasing_by
  simp only [List.length_drop]
  have h1 : d ≠ 0 := fun hd => h (Or.inl hd)
  have h2 : xs ≠ [] := fun hx => h (Or.inr hx)
  have h3 := List.length_pos.mpr h2
  omega

/-- Modelled from the spec: `Index::add` receives the flattened row-major
buffer and appends the contained rows in order (spec section 4.1: appends all
vectors in the given order). -/
def IndexImpl.add (idx : IndexImpl) (flat : List F) : IndexImpl :=
  { idx with vectors := idx.vectors ++ chunks idx.d flat }

/-- Modelled from the spec: `Index::reset` discards all stored vectors; the
dimension and the metric remain unchanged (spec section 4.1). -/
def IndexImpl.reset (idx : IndexImpl) : IndexImpl :=
  { idx with vectors := [] }

/-- Inner product of two equal-length vectors (the similarity metric; spec
glossary: dot product, not cosine-normalized). -/
def innerProduct (a b : List F) : F :=
  (List.zipWith (fun x y => x * y) a b).sum

/-- All stored vectors scored against a query, tagged with their IDs starting
from `i` (IDs are zero-based insertion order, spec section 3). -/
def scoredFrom (q : List F) (i : ℕ) : List (List F) → List (ℕ × F)
  | [] => []
  | v :: vs => (i, innerProduct q v) :: scoredFrom q (i + 1) vs

/-- Ranking order of search results: higher score first; on exactly equal
scores, lower ID first (spec section 4.1 tie-break). -/
def scoreRel (a b : ℕ × F) : Prop :=
  b.2 < a.2 ∨ (a.2 = b.2 ∧ a.1 ≤ b.1)

instance : DecidableRel scoreRel := fun a b =>
  inferInstanceAs (Decidable (b.2 < a.2 ∨ (a.2 = b.2 ∧ a.1 ≤ b.1)))

instance : IsTotal (ℕ × F) scoreRel where
  total a b := by
    rcases lt_trichotomy a.2 b.2 with h | h | h
    · exact Or.inr (Or.inl h)
    · rcases Nat.le_total a.1 b.1 with h1 | h1
      · exact Or.inl (Or.inr ⟨h, h1⟩)
      · exact Or.inr (Or.inr ⟨h.symm, h1⟩)
    · exact Or.inl (Or.inl h)

instance : IsTrans (ℕ × F) scoreRel where
  trans a b c hab hbc := by
    rcases hab with h1 | ⟨h1, h1n⟩ <;> rcases hbc with h2 | ⟨h2, h2n⟩
    · exact Or.inl (lt_trans h2 h1)
    · exact Or.inl (h2 ▸ h1)
    · exact Or.inl (h1 ▸ h2)
    · exact Or.inr ⟨h1.trans h2, h1n.trans h2n⟩

/-- Modelled from the spec: the ranked scored list — every stored vector is
scored by inner product against the query and the list is ordered by
descending score, lower ID first on ties (spec section 4.1). -/
def IndexImpl.ranked (idx : IndexImpl) (q : List F) : List (ℕ × F) :=
  List.insertionSort scoreRel (scoredFrom q 0 idx.vectors)

/-- Result of a FAISS search: parallel lists of distances (scores) and
labels (IDs), mirroring `faiss::index::SearchResult`. -/
structure SearchResult where
  distances : List F
  labels : List Int
deriving DecidableEq

/-- Modelled from the spec: `Index::search` for a flat index returns the top
`min(k, count)` entries by descending score (spec section 4.1: result length
is `min(k, count)`, never padded with invalid IDs). -/
def IndexImpl.searchImpl (idx : IndexImpl) (q : List F) (k : ℕ) : SearchResult :=
  { distances := ((idx.ranked q).take k).map (fun p => p.2)
    labels := ((idx.ranked q).take k).map (fun p => (p.1 : Int)) }

/-- Errors surfaced to Python.  The Rust source formats structured data into
exception message strings; the embedding keeps the structured payload. -/
inductive PyErr where
  /-- PyValueError "Vector i has dimension got, expected expected". -/
  | vectorDimensionMismatch (i got expected : ℕ)
  /-- PyValueError "Query has dimension got, expected expected". -/
  | queryDimensionMismatch (got expected : ℕ)
  /-- PyRuntimeError with a message. -/
  | runtimeError (msg : String)
  /-- PyIOError with a message. -/
  | ioError (msg : String)
deriving DecidableEq

/-- The `VectorIndex` pyclass: the guarded FAISS index plus the cached
`dimension` field (source lines 46-49). -/
structure VectorIndex where
  index : IndexImpl
  dimension : ℕ
deriving DecidableEq

/-- Modelled from the spec: `faiss::index_factory(dimension, "Flat",
MetricType::InnerProduct)` constructs an empty flat index with the given
dimension and metric. -/
def index_factory (d : ℕ) (m : MetricType) : Except PyErr IndexImpl :=
  Except.ok { d := d, metric := m, vectors := [] }

/-- `VectorIndex::new` (source lines 63-77). -/
def VectorIndex.new (dimension : ℕ) : Except PyErr VectorIndex :=
  match index_factory dimension MetricType.innerProductMetric with
  | Except.error e => Except.error e
  | Except.ok index => Except.ok { index := index, dimension := dimension }

/-- The validation loop of `add_vectors` (source lines 90-99): the first
vector whose length differs from the expected dimension yields the error. -/
def validateDims (d : ℕ) (i : ℕ) : List (List F) → Option PyErr
  | [] => none
  | v :: rest =>
    if v.length ≠ d then some (PyErr.vectorDimensionMismatch i v.length d)
    else validateDims d (i + 1) rest

/-- The integer range `start_id..end_id` collected into a list
(source line 119). -/
def intRange (a b : Int) : List Int :=
  (List.range (b - a).toNat).map (fun i : ℕ => a + (i : Int))

/-- `VectorIndex::add_vectors` (source lines 88-120): validate every vector
against the cached dimension, flatten, then append via the inner index and
return the contiguous ID range.  The updated state is returned alongside. -/
def VectorIndex.add_vectors (self : VectorIndex) (vectors : List (List F)) :
    Except PyErr (List Int) × VectorIndex :=
  match validateDims self.dimension 0 vectors with
  | some e => (Except.error e, self)
  | none =>
    let flat_vectors := vectors.flatten
    let start_id : Int := (self.index.ntotal : Int)
    let index := self.index.add flat_vectors
    let end_id : Int := (index.ntotal : Int)
    (Except.ok (intRange start_id end_id), { self with index := index })

/-- `VectorIndex::search` (source lines 132-160): validate the query length
against the cached dimension, search the inner index, and zip labels with
distances. -/
def VectorIndex.search (self : VectorIndex) (query : List F) (k : ℕ) :
    Except PyErr (List (Int × F)) :=
  if query.length ≠ self.dimension then
    Except.error (PyErr.queryDimensionMismatch query.length self.dimension)
  else
    let result := self.index.searchImpl query k
    Except.ok (result.labels.zip result.distances)

/-- Binary persistence content, following the layout of spec section 6:
magic, version, dimension, count, then the row-major data, plus the metric
which FAISS's own format also persists. -/
structure IndexFile where
  magic : ℕ
  version : ℕ
  fileDimension : ℕ
  count : ℕ
  metric : MetricType
  data : List F
deriving DecidableEq

/-- Magic tag of the persisted format. -/
def indexMagic : ℕ := 1230132001

/-- Version tag of the persisted format. -/
def indexVersion : ℕ := 1

/-- Modelled from the spec: `faiss::write_index` serializes dimension, count
and all stored vectors in insertion order (spec sections 4.1 and 6). -/
def write_index (idx : IndexImpl) : IndexFile :=
  { magic := indexMagic
    version := indexVersion
    fileDimension := idx.d
    count := idx.vectors.length
    metric := idx.metric
    data := idx.vectors.flatten }

/-- Modelled from the spec: `faiss::read_index` validates the structure
(header tags and body size) and reconstructs the index; a malformed file
fails (spec section 4.1 `CorruptDataError`, surfaced by the wrapper as an
IO-error exception). -/
def read_index (f : IndexFile) : Except PyErr IndexImpl :=
  if f.magic ≠ indexMagic ∨ f.version ≠ indexVersion ∨
      f.data.length ≠ f.count * f.fileDimension then
    Except.error (PyErr.ioError "Failed to load index: corrupt data")
  else
    Except.ok { d := f.fileDimension, metric := f.metric,
                vectors := chunks f.fileDimension f.data }

/-- `VectorIndex::save` (source lines 163-173): writes the inner index; the
file content is returned (the filesystem is external to the embedding). -/
def VectorIndex.save (self : VectorIndex) : IndexFile :=
  write_index self.index

/-- `VectorIndex::load` (source lines 177-188): reads the index and caches
its dimension (`index.d()`) in the wrapper. -/
def VectorIndex.load (f : IndexFile) : Except PyErr VectorIndex :=
  match read_index f with
  | Except.error e => Except.error e
  | Except.ok index => Except.ok { index := index, dimension := index.d }

/-- `VectorIndex::ntotal` (source lines 191-199). -/
def VectorIndex.ntotal (self : VectorIndex) : Except PyErr Int :=
  Except.ok (self.index.ntotal : Int)

/-- `VectorIndex::reset` (source lines 207-217): resets the inner index; the
cached dimension field is untouched. -/
def VectorIndex.reset (self : VectorIndex) : VectorIndex :=
  { self with index := self.index.reset }

/-- States of a `VectorIndex` reachable through the public constructors and
mutators. -/
inductive Reachable : VectorIndex → Prop
  | new (d : ℕ) (self : VectorIndex) : VectorIndex.new d = Except.ok self → Reachable self
  | load (f : IndexFile) (self : VectorIndex) :
      VectorIndex.load f = Except.ok self → Reachable self
  | add (self : VectorIndex) (vs : List (List F)) :
      Reachable self → Reachable (self.add_vectors vs).2
  | reset (self : VectorIndex) : Reachable self → Reachable self.reset

/-! ### Helper lemmas about `chunks` and flattening -/

theorem chunks_nil (d : ℕ) : chunks d [] = [] := by
  rw [chunks]
  simp

theorem chunks_zero (xs : List F) : chunks 0 xs = [] := by
  rw [chunks]
  simp

theorem chunks_of_ne (d : ℕ) (xs : List F) (hd : d ≠ 0) (hxs : xs ≠ []) :
    chunks d xs = xs.take d :: chunks d (xs.drop d) := by
  rw [chunks]
  simp [hd, hxs]

theorem chunks_flatten (d : ℕ) (hd : 0 < d) :
    ∀ vs : List (List F), (∀ v ∈ vs, v.length = d) → chunks d vs.flatten = vs := by
  intro vs
  induction vs with
  | nil => intro _; simpa using chunks_nil d
  | cons v rest ih =>
    intro h
    have hv : v.length = d := h v (List.mem_cons_self v rest)
    have hvne : v ≠ [] := by
      intro hcon
      rw [hcon] at hv
      simp at hv
      omega
    have hne : v ++ rest.flatten ≠ [] := by
      intro hcon
      exact hvne (List.append_eq_nil.mp hcon).1
    rw [List.flatten_cons, chunks_of_ne d _ (by omega) hne]
    rw [← hv, List.take_left, List.drop_left]
    rw [hv]
    rw [ih (fun w hw => h w (List.mem_cons_of_mem v hw))]

theorem length_flatten_of_uniform (d : ℕ) :
    ∀ vs : List (List F), (∀ v ∈ vs, v.length = d) →
      vs.flatten.length = vs.length * d := by
  intro vs
  induction vs with
  | nil => intro _; simp
  | cons v rest ih =>
    intro h
    have hv : v.length = d := h v (List.mem_cons_self v rest)
    have := ih (fun w hw => h w (List.mem_cons_of_mem v hw))
    simp [List.flatten_cons, hv, this, Nat.succ_mul, Nat.add_comm]

/-! ### Helper lemmas about the validation loop -/

theorem validateDims_eq_none (d : ℕ) :
    ∀ (i : ℕ) (vs : List (List F)),
      validateDims d i vs = none ↔ ∀ v ∈ vs, v.length = d := by
  intro i vs
  induction vs generalizing i with
  | nil => simp [validateDims]
  | cons v rest ih =>
    by_cases hv : v.length = d
    · simp [validateDims, hv, ih (i + 1)]
    · simp [validateDims, hv]

theorem validateDims_eq_some (d : ℕ) :
    ∀ (vs : List (List F)) (i : ℕ) (e : PyErr), validateDims d i vs = some e →
      ∃ j v, vs[j]? = some v ∧ v.length ≠ d ∧
        e = PyErr.vectorDimensionMismatch (i + j) v.length d ∧
        ∀ j' v', j' < j → vs[j']? = some v' → v'.length = d := by
  intro vs
  induction vs with
  | nil => intro i e h; simp [validateDims] at h
  | cons v rest ih =>
    intro i e h
    by_cases hv : v.length = d
    · have h' : validateDims d (i + 1) rest = some e := by
        simpa [validateDims, hv] using h
      obtain ⟨j, w, hw, hwlen, he, hfirst⟩ := ih (i + 1) e h'
      refine ⟨j + 1, w, by simpa using hw, hwlen, by simpa [Nat.add_assoc, Nat.add_comm 1 j] using he, ?_⟩
      intro j' v' hj' hv'
      match j' with
      | 0 =>
        have : v = v' := by simpa using hv'
        rw [← this]; exact hv
      | Nat.succ j'' =>
        exact hfirst j'' v' (by omega) (by simpa using hv')
    · have he : e = PyErr.vectorDimensionMismatch i v.length d := by
        have := h
        simp [validateDims, hv] at this
        exact this.symm
      exact ⟨0, v, by simp, hv, by simpa using he, by omega⟩

/-! ### Helper lemmas about scoring and ranking -/

theorem length_scoredFrom (q : List F) :
    ∀ (vs : List (List F)) (i : ℕ), (scoredFrom q i vs).length = vs.length := by
  intro vs
  induction vs with
  | nil => intro i; simp [scoredFrom]
  | cons v rest ih => intro i; simp [scoredFrom, ih (i + 1)]

theorem mem_scoredFrom (q : List F) :
    ∀ (vs : List (List F)) (i : ℕ) (p : ℕ × F),
      p ∈ scoredFrom q i vs ↔
        ∃ j v, vs[j]? = some v ∧ p.1 = i + j ∧ p.2 = innerProduct q v := by
  intro vs
  induction vs with
  | nil => intro i p; simp [scoredFrom]
  | cons v rest ih =>
    intro i p
    constructor
    · intro hp
      rcases List.mem_cons.mp hp with hp | hp
      · exact ⟨0, v, by simp, by simp [hp], by simp [hp]⟩
      · obtain ⟨j, w, hw, h1, h2⟩ := (ih (i + 1) p).mp hp
        exact ⟨j + 1, w, by simpa using hw, by omega, h2⟩
    · rintro ⟨j, w, hw, h1, h2⟩
      match j with
      | 0 =>
        have hwv : v = w := by simpa using hw
        have : p = (i, innerProduct q v) := by
          cases p
          simp only [Prod.mk.injEq]
          constructor
          · simpa using h1
          · rw [hwv]; simpa using h2
        rw [this]
        exact List.mem_cons_self _ _
      | Nat.succ j' =>
        apply List.mem_cons_of_mem
        refine (ih (i + 1) p).mpr ⟨j', w, by simpa using hw, by omega, h2⟩

theorem pairwise_fst_scoredFrom (q : List F) :
    ∀ (vs : List (List F)) (i : ℕ),
      (scoredFrom q i vs).Pairwise (fun a b => a.1 < b.1) := by
  intro vs
  induction vs with
  | nil => intro i; simp [scoredFrom]
  | cons v rest ih =>
    intro i
    refine List.Pairwise.cons ?_ (ih (i + 1))
    intro p hp
    obtain ⟨j, w, _, h1, _⟩ := (mem_scoredFrom q rest (i + 1) p).mp hp
    simp only
    omega

theorem ranked_perm (idx : IndexImpl) (q : List F) :
    (idx.ranked q).Perm (scoredFrom q 0 idx.vectors) :=
  List.perm_insertionSort scoreRel _

theorem ranked_sorted (idx : IndexImpl) (q : List F) :
    (idx.ranked q).Pairwise scoreRel :=
  List.sorted_insertionSort scoreRel _

theorem length_ranked (idx : IndexImpl) (q : List F) :
    (idx.ranked q).length = idx.ntotal := by
  rw [(ranked_perm idx q).length_eq, length_scoredFrom]
  rfl

theorem mem_ranked (idx : IndexImpl) (q : List F) (p : ℕ × F) :
    p ∈ idx.ranked q ↔
      ∃ j v, idx.vectors[j]? = some v ∧ p.1 = j ∧ p.2 = innerProduct q v := by
  rw [(ranked_perm idx q).mem_iff, mem_scoredFrom]
  simp

theorem nodup_fst_ranked (idx : IndexImpl) (q : List F) :
    ((idx.ranked q).map (fun p => p.1)).Nodup := by
  have h1 : ((scoredFrom q 0 idx.vectors).map (fun p => p.1)).Pairwise (fun a b => a < b) :=
    (List.pairwise_map).mpr (pairwise_fst_scoredFrom q idx.vectors 0)
  have h2 : ((scoredFrom q 0 idx.vectors).map (fun p => p.1)).Nodup :=
    h1.imp (fun h => Nat.ne_of_lt h)
  exact ((ranked_perm idx q).map (fun p => p.1)).nodup_iff.mpr h2

/-! ### Master lemmas about the wrapper operations -/

theorem intRange_add (a : Int) (len : ℕ) :
    intRange a (a + len) = (List.range len).map (fun i : ℕ => a + (i : Int)) := by
  simp [intRange]

theorem add_vectors_of_valid (self : VectorIndex) (vectors : List (List F))
    (hval : ∀ v ∈ vectors, v.length = self.dimension)
    (hinv : self.index.d = self.dimension) (hd : 0 < self.dimension) :
    self.add_vectors vectors =
      (Except.ok ((List.range vectors.length).map
          (fun i : ℕ => ((self.index.ntotal : Int) + (i : Int)))),
       { self with index :=
          { self.index with vectors := self.index.vectors ++ vectors } }) := by
  have hnone : validateDims self.dimension 0 vectors = none :=
    (validateDims_eq_none self.dimension 0 vectors).mpr hval
  have hchunks : chunks self.index.d vectors.flatten = vectors := by
    apply chunks_flatten self.index.d (by omega) vectors
    intro v hv
    rw [hval v hv, hinv]
  have haddv : self.index.add vectors.flatten =
      { self.index with vectors := self.index.vectors ++ vectors } := by
    simp [IndexImpl.add, hchunks]
  have hnt : (self.index.add vectors.flatten).ntotal =
      self.index.ntotal + vectors.length := by
    rw [haddv]
    simp [IndexImpl.ntotal]
  rw [VectorIndex.add_vectors]
  rw [hnone]
  simp only [haddv]
  simp only [IndexImpl.ntotal, List.length_append]
  rw [show ((self.index.vectors.length + vectors.length : ℕ) : Int) =
        ((self.index.vectors.length : ℕ) : Int) + ((vectors.length : ℕ) : Int) by
      push_cast; ring]
  rw [intRange_add]

theorem add_vectors_of_invalid (self : VectorIndex) (vectors : List (List F))
    (hbad : ¬ ∀ v ∈ vectors, v.length = self.dimension) :
    ∃ j v, vectors[j]? = some v ∧ v.length ≠ self.dimension ∧
      (∀ j' v', j' < j → vectors[j']? = some v' → v'.length = self.dimension) ∧
      self.add_vectors vectors =
        (Except.error (PyErr.vectorDimensionMismatch j v.length self.dimension),
         self) := by
  have hne : validateDims self.dimension 0 vectors ≠ none := by
    intro hcon
    exact hbad ((validateDims_eq_none self.dimension 0 vectors).mp hcon)
  obtain ⟨e, he⟩ := Option.ne_none_iff_exists'.mp hne
  obtain ⟨j, v, hv, hvlen, heq, hfirst⟩ :=
    validateDims_eq_some self.dimension vectors 0 e he
  refine ⟨j, v, hv, hvlen, fun j' v' h1 h2 => hfirst j' v' h1 h2, ?_⟩
  rw [VectorIndex.add_vectors, he, heq]
  simp

theorem search_of_valid (self : VectorIndex) (query : List F) (k : ℕ)
    (h : query.length = self.dimension) :
    self.search query k =
      Except.ok (((self.index.ranked query).take k).map
        (fun p => ((p.1 : Int), p.2))) := by
  rw [VectorIndex.search]
  rw [if_neg (by omega)]
  simp only [IndexImpl.searchImpl]
  rw [List.zip_map']

theorem search_of_invalid (self : VectorIndex) (query : List F) (k : ℕ)
    (h : query.length ≠ self.dimension) :
    self.search query k =
      Except.error (PyErr.queryDimensionMismatch query.length self.dimension) := by
  rw [VectorIndex.search, if_pos h]

/-! ### Properties of the search result -/

theorem scoreRel_snd_le {a b : ℕ × F} (h : scoreRel a b) : b.2 ≤ a.2 := by
  rcases h with h | ⟨h, _⟩
  · exact le_of_lt h
  · exact le_of_eq h.symm

theorem search_out_length (self : VectorIndex) (query : List F) (k : ℕ) :
    (((self.index.ranked query).take k).map
      (fun p => ((p.1 : Int), p.2))).length = min k self.index.ntotal := by
  rw [List.length_map, List.length_take, length_ranked]

theorem search_out_entries (self : VectorIndex) (query : List F) (k : ℕ)
    (p : Int × F)
    (hp : p ∈ ((self.index.ranked query).take k).map (fun p => ((p.1 : Int), p.2))) :
    ∃ (i : ℕ) (v : List F), self.index.vectors[i]? = some v ∧ p.1 = (i : Int) ∧
      p.2 = innerProduct query v := by
  obtain ⟨s, hs, hps⟩ := List.mem_map.mp hp
  have hsL : s ∈ self.index.ranked query := List.mem_of_mem_take hs
  obtain ⟨j, v, hv, h1, h2⟩ := (mem_ranked self.index query s).mp hsL
  exact ⟨j, v, hv, by rw [← hps]; simp [h1], by rw [← hps]; simpa using h2⟩

theorem search_out_sorted (self : VectorIndex) (query : List F) (k : ℕ) :
    (((self.index.ranked query).take k).map
      (fun p => ((p.1 : Int), p.2))).Pairwise (fun a b => b.2 ≤ a.2) := by
  apply (List.pairwise_map).mpr
  apply List.Pairwise.imp scoreRel_snd_le
  exact (ranked_sorted self.index query).sublist (List.take_sublist k _)

theorem search_out_topk (self : VectorIndex) (query : List F) (k : ℕ)
    (i : ℕ) (v : List F) (hv : self.index.vectors[i]? = some v)
    (hnot : ((i : Int), innerProduct query v) ∉
      ((self.index.ranked query).take k).map (fun p => ((p.1 : Int), p.2))) :
    ∀ p ∈ ((self.index.ranked query).take k).map (fun p => ((p.1 : Int), p.2)),
      innerProduct query v ≤ p.2 := by
  intro p hp
  set L := self.index.ranked query with hL
  set s : ℕ × F := (i, innerProduct query v) with hs
  have hsL : s ∈ L := (mem_ranked self.index query s).mpr ⟨i, v, hv, rfl, rfl⟩
  have hsnt : s ∉ L.take k := by
    intro hcon
    exact hnot (List.mem_map.mpr ⟨s, hcon, rfl⟩)
  have hsdrop : s ∈ L.drop k := by
    have := (List.take_append_drop k L) ▸ hsL
    rcases List.mem_append.mp this with h | h
    · exact absurd h hsnt
    · exact h
  have hpair : L.Pairwise scoreRel := ranked_sorted self.index query
  have hsplit : (L.take k ++ L.drop k).Pairwise scoreRel := by
    rw [List.take_append_drop]
    exact hpair
  have hrel : ∀ x ∈ L.take k, ∀ y ∈ L.drop k, scoreRel x y :=
    (List.pairwise_append.mp hsplit).2.2
  obtain ⟨x, hx, hxp⟩ := List.mem_map.mp hp
  have := scoreRel_snd_le (hrel x hx s hsdrop)
  rw [← hxp]
  simpa using this

theorem search_out_tiebreak (self : VectorIndex) (query : List F) (k : ℕ)
    (i j : ℕ)
    (hi : i < (((self.index.ranked query).take k).map
      (fun p => ((p.1 : Int), p.2))).length)
    (hj : j < (((self.index.ranked query).take k).map
      (fun p => ((p.1 : Int), p.2))).length)
    (hij : i < j)
    (heq : ((((self.index.ranked query).take k).map
        (fun p => ((p.1 : Int), p.2))).get ⟨i, hi⟩).2 =
      ((((self.index.ranked query).take k).map
        (fun p => ((p.1 : Int), p.2))).get ⟨j, hj⟩).2) :
    ((((self.index.ranked query).take k).map
      (fun p => ((p.1 : Int), p.2))).get ⟨i, hi⟩).1 <
    ((((self.index.ranked query).take k).map
      (fun p => ((p.1 : Int), p.2))).get ⟨j, hj⟩).1 := by
  set L := self.index.ranked query with hL
  set t := L.take k with ht
  have hi' : i < t.length := by simpa using hi
  have hj' : j < t.length := by simpa using hj
  have hpair : t.Pairwise scoreRel :=
    (ranked_sorted self.index query).sublist (List.take_sublist k L)
  have hrel : scoreRel (t.get ⟨i, hi'⟩) (t.get ⟨j, hj'⟩) := by
    have := List.pairwise_iff_getElem.mp hpair i j hi' hj' hij
    simpa [List.get_eq_getElem] using this
  have hsnd : (t.get ⟨i, hi'⟩).2 = (t.get ⟨j, hj'⟩).2 := by
    have h1 : ((((self.index.ranked query).take k).map
        (fun p => ((p.1 : Int), p.2))).get ⟨i, hi⟩) =
        (((t.get ⟨i, hi'⟩).1 : Int), (t.get ⟨i, hi'⟩).2) := by
      simp [List.get_eq_getElem, ht, hL]
    have h2 : ((((self.index.ranked query).take k).map
        (fun p => ((p.1 : Int), p.2))).get ⟨j, hj⟩) =
        (((t.get ⟨j, hj'⟩).1 : Int), (t.get ⟨j, hj'⟩).2) := by
      simp [List.get_eq_getElem, ht, hL]
    rw [h1, h2] at heq
    simpa using heq
  have hfst_le : (t.get ⟨i, hi'⟩).1 ≤ (t.get ⟨j, hj'⟩).1 := by
    rcases hrel with h | ⟨_, h⟩
    · exact absurd hsnd (by exact fun hc => absurd (hc ▸ h) (lt_irrefl _))
    · exact h
  have hnod : (t.map (fun p => p.1)).Nodup := by
    have : t.map (fun p => p.1) = (L.map (fun p => p.1)).take k := by
      rw [ht, List.map_take]
    rw [this]
    exact ((List.take_sublist k _)).nodup (nodup_fst_ranked self.index query)
  have hfst_ne : (t.get ⟨i, hi'⟩).1 ≠ (t.get ⟨j, hj'⟩).1 := by
    intro hcon
    have hi'' : i < (t.map (fun p => p.1)).length := by simpa using hi'
    have hj'' : j < (t.map (fun p => p.1)).length := by simpa using hj'
    have : (t.map (fun p => p.1))[i] = (t.map (fun p => p.1))[j] := by
      simpa [List.getElem_map, List.get_eq_getElem] using hcon
    have := (hnod.getElem_inj_iff).mp this
    omega
  have hfst_lt : (t.get ⟨i, hi'⟩).1 < (t.get ⟨j, hj'⟩).1 :=
    lt_of_le_of_ne hfst_le hfst_ne
  have h1 : ((((self.index.ranked query).take k).map
      (fun p => ((p.1 : Int), p.2))).get ⟨i, hi⟩).1 = ((t.get ⟨i, hi'⟩).1 : Int) := by
    simp [List.get_eq_getElem, ht, hL]
  have h2 : ((((self.index.ranked query).take k).map
      (fun p => ((p.1 : Int), p.2))).get ⟨j, hj⟩).1 = ((t.get ⟨j, hj'⟩).1 : Int) := by
    simp [List.get_eq_getElem, ht, hL]
  rw [h1, h2]
  exact_mod_cast hfst_lt

/-! ### Persistence, construction and the dimension-cache invariant -/

theorem new_eq (d : ℕ) :
    VectorIndex.new d = Except.ok
      { index := { d := d, metric := MetricType.innerProductMetric, vectors := [] },
        dimension := d } := rfl

theorem reset_state (self : VectorIndex) :
    self.reset = { index := { self.index with vectors := [] },
                   dimension := self.dimension } := rfl

theorem load_save (self : VectorIndex)
    (hwf : ∀ v ∈ self.index.vectors, v.length = self.index.d)
    (hd : 0 < self.index.d) (hdim : self.dimension = self.index.d) :
    VectorIndex.load self.save = Except.ok self := by
  have hlen : self.index.vectors.flatten.length =
      self.index.vectors.length * self.index.d :=
    length_flatten_of_uniform self.index.d self.index.vectors hwf
  have hread : read_index (write_index self.index) = Except.ok self.index := by
    rw [read_index]
    rw [if_neg (by simp [write_index, hlen])]
    simp only [write_index]
    rw [chunks_flatten self.index.d hd self.index.vectors hwf]
  rw [VectorIndex.load, VectorIndex.save, hread]
  cases self with
  | mk index dimension =>
    simp only at hdim
    simp [hdim]

theorem reachable_dim_cache (self : VectorIndex) (h : Reachable self) :
    self.dimension = self.index.d := by
  induction h with
  | new d s hs =>
    rw [new_eq] at hs
    cases hs
    rfl
  | load f s hs =>
    rw [VectorIndex.load] at hs
    cases hread : read_index f with
    | error e => rw [hread] at hs; cases hs
    | ok idx => rw [hread] at hs; cases hs; rfl
  | add s vs _ ih =>
    rw [VectorIndex.add_vectors]
    cases hval : validateDims s.dimension 0 vs with
    | some e => simpa using ih
    | none => simpa [IndexImpl.add] using ih
  | reset s _ ih =>
    simpa [reset_state] using ih

/-! ### Concrete example state (spec section 8) -/

/-- The dimension-2 index of the spec's search-correctness example, holding
the vectors [1,0], [0,1], [0.9,0.1] in insertion order. -/
def exIndex : VectorIndex :=
  { index := { d := 2, metric := MetricType.innerProductMetric,
               vectors := [[1, 0], [0, 1], [9/10, 1/10]] },
    dimension := 2 }

theorem exIndex_add :
    (VectorIndex.mk { d := 2, metric := MetricType.innerProductMetric, vectors := [] }
        2).add_vectors [[1, 0], [0, 1], [9/10, 1/10]] =
      (Except.ok [(0 : Int), 1, 2], exIndex) := by
  rw [add_vectors_of_valid _ _ (by decide) rfl (by norm_num)]
  norm_num [exIndex, IndexImpl.ntotal, List.range_succ]

theorem exIndex_search :
    exIndex.search [1, 0] 2 =
      Except.ok [((0 : Int), (1 : F)), ((2 : Int), (9/10 : F))] := by
  norm_num [VectorIndex.search, exIndex, IndexImpl.searchImpl, IndexImpl.ranked,
    List.insertionSort, List.orderedInsert, scoreRel, scoredFrom, innerProduct,
    List.zip]

/-! ### The claims -/

/-- C1: for every index and every query of correct dimension, `search` returns
exactly `min(k, count)` result entries — it never returns fewer entries due to
an error and never pads the result with invalid IDs (every returned ID names a
stored vector). -/
theorem claim_C1 (self : VectorIndex) (query : List F) (k : ℕ)
    (h : query.length = self.dimension) :
    ∃ out, self.search query k = Except.ok out ∧
      out.length = min k self.index.ntotal ∧
      ∀ p ∈ out, ∃ (i : ℕ) (v : List F),
        self.index.vectors[i]? = some v ∧ p.1 = (i : Int) := by
  refine ⟨_, search_of_valid self query k h, search_out_length self query k, ?_⟩
  intro p hp
  obtain ⟨i, v, hv, h1, _⟩ := search_out_entries self query k p hp
  exact ⟨i, v, hv, h1⟩

theorem claim_C1_witness :
    ∃ out, exIndex.search [1, 0] 5 = Except.ok out ∧
      out.length = min 5 exIndex.index.ntotal ∧
      ∀ p ∈ out, ∃ (i : ℕ) (v : List F),
        exIndex.index.vectors[i]? = some v ∧ p.1 = (i : Int) :=
  claim_C1 exIndex [1, 0] 5 (by rfl)

/-- C2: if any vector of the batch has the wrong length, `add_vectors` fails
with the dimension-mismatch error naming the first offending element (its
position, its length and the expected dimension) and the index is left
completely unmodified. -/
theorem claim_C2 (self : VectorIndex) (vectors : List (List F))
    (h : ¬ ∀ v ∈ vectors, v.length = self.dimension) :
    ∃ (j : ℕ) (v : List F), vectors[j]? = some v ∧ v.length ≠ self.dimension ∧
      (∀ (j' : ℕ) (v' : List F), j' < j → vectors[j']? = some v' →
        v'.length = self.dimension) ∧
      self.add_vectors vectors =
        (Except.error (PyErr.vectorDimensionMismatch j v.length self.dimension),
         self) :=
  add_vectors_of_invalid self vectors h

theorem claim_C2_witness :
    ∃ (j : ℕ) (v : List F),
      ([[1, 0], [1]] : List (List F))[j]? = some v ∧
      v.length ≠ exIndex.dimension ∧
      (∀ (j' : ℕ) (v' : List F), j' < j →
        ([[1, 0], [1]] : List (List F))[j']? = some v' →
        v'.length = exIndex.dimension) ∧
      exIndex.add_vectors [[1, 0], [1]] =
        (Except.error (PyErr.vectorDimensionMismatch j
          ([1] : List F).length exIndex.dimension), exIndex) := by
  have h := claim_C2 exIndex [[1, 0], [1]] (by decide)
  obtain ⟨j, v, hv, hlen, hfirst, heq⟩ := h
  have hj : j = 1 := by
    match j with
    | 0 =>
      have hv0 : ([1, 0] : List F) = v := by simpa using hv
      exact absurd (show v.length = exIndex.dimension by rw [← hv0]; rfl) hlen
    | 1 => rfl
    | Nat.succ (Nat.succ j') => simp at hv
  subst hj
  have hv1 : ([1] : List F) = v := by simpa using hv
  subst hv1
  exact ⟨1, [1], hv, hlen, hfirst, heq⟩

/-- C3: saving an index and loading the result yields an index with identical
dimension, identical count, and identical vector values in the same ID order. -/
theorem claim_C3 (self : VectorIndex)
    (hwf : ∀ v ∈ self.index.vectors, v.length = self.index.d)
    (hd : 0 < self.index.d) (hdim : self.dimension = self.index.d) :
    ∃ self', VectorIndex.load self.save = Except.ok self' ∧
      self'.dimension = self.dimension ∧
      self'.index.ntotal = self.index.ntotal ∧
      self'.index.vectors = self.index.vectors :=
  ⟨self, load_save self hwf hd hdim, rfl, rfl, rfl⟩

theorem claim_C3_witness :
    ∃ self', VectorIndex.load exIndex.save = Except.ok self' ∧
      self'.dimension = exIndex.dimension ∧
      self'.index.ntotal = exIndex.index.ntotal ∧
      self'.index.vectors = exIndex.index.vectors :=
  claim_C3 exIndex (by decide) (by decide) (by rfl)

/-- C5: for a batch of correctly-sized vectors, `add_vectors` appends them in
order and returns the contiguous ascending ID range starting at the previous
count, and the count grows by the batch size. -/
theorem claim_C5 (self : VectorIndex) (vectors : List (List F))
    (hval : ∀ v ∈ vectors, v.length = self.dimension)
    (hinv : self.index.d = self.dimension) (hd : 0 < self.dimension) :
    ∃ ids self', self.add_vectors vectors = (Except.ok ids, self') ∧
      ids = (List.range vectors.length).map
        (fun i : ℕ => ((self.index.ntotal : Int) + (i : Int))) ∧
      self'.index.vectors = self.index.vectors ++ vectors ∧
      self'.index.ntotal = self.index.ntotal + vectors.length ∧
      self'.ntotal = Except.ok ((self.index.ntotal : Int) + (vectors.length : Int)) := by
  refine ⟨_, _, add_vectors_of_valid self vectors hval hinv hd, rfl, rfl, ?_, ?_⟩
  · simp [IndexImpl.ntotal]
  · simp [VectorIndex.ntotal, IndexImpl.ntotal]

theorem claim_C5_witness :
    ∃ ids self', exIndex.add_vectors [[1, 1]] = (Except.ok ids, self') ∧
      ids = (List.range ([[1, 1]] : List (List F)).length).map
        (fun i : ℕ => ((exIndex.index.ntotal : Int) + (i : Int))) ∧
      self'.index.vectors = exIndex.index.vectors ++ [[1, 1]] ∧
      self'.index.ntotal = exIndex.index.ntotal + ([[1, 1]] : List (List F)).length ∧
      self'.ntotal = Except.ok ((exIndex.index.ntotal : Int) +
        (([[1, 1]] : List (List F)).length : Int)) :=
  claim_C5 exIndex [[1, 1]] (by decide) (by rfl) (by decide)

/-- C7: for every query whose length differs from the index's dimension,
`search` fails with the dimension-mismatch error reporting the query's length
and the expected dimension, and returns no results. -/
theorem claim_C7 (self : VectorIndex) (query : List F) (k : ℕ)
    (h : query.length ≠ self.dimension) :
    self.search query k =
      Except.error (PyErr.queryDimensionMismatch query.length self.dimension) :=
  search_of_invalid self query k h

theorem claim_C7_witness :
    exIndex.search [1] 3 =
      Except.error (PyErr.queryDimensionMismatch
        ([1] : List F).length exIndex.dimension) :=
  claim_C7 exIndex [1] 3 (by decide)

/-- C9: a freshly constructed index of any positive dimension is empty and
reports the construction dimension. -/
theorem claim_C9 (d : ℕ) (hd : 0 < d) :
    ∃ self, VectorIndex.new d = Except.ok self ∧
      self.ntotal = Except.ok (0 : Int) ∧ self.dimension = d :=
  ⟨_, new_eq d, rfl, rfl⟩

theorem claim_C9_witness :
    ∃ self, VectorIndex.new 768 = Except.ok self ∧
      self.ntotal = Except.ok (0 : Int) ∧ self.dimension = 768 :=
  claim_C9 768 (by norm_num)

/-- C4: for every correct-dimension query, `search` scores every stored vector
by inner product against the query and returns entries ordered by descending
score that dominate all non-returned stored vectors; in particular, inserting
[1,0], [0,1], [0.9,0.1] into a fresh dimension-2 index and searching [1,0]
with k = 2 yields IDs [0, 2] with scores 1.0 and 0.9. -/
theorem claim_C4 :
    (∀ (self : VectorIndex) (query : List F) (k : ℕ),
      query.length = self.dimension →
      ∃ out, self.search query k = Except.ok out ∧
        (∀ p ∈ out, ∃ (i : ℕ) (v : List F), self.index.vectors[i]? = some v ∧
          p.1 = (i : Int) ∧ p.2 = innerProduct query v) ∧
        out.Pairwise (fun a b => b.2 ≤ a.2) ∧
        (∀ (i : ℕ) (v : List F), self.index.vectors[i]? = some v →
          ((i : Int), innerProduct query v) ∉ out →
          ∀ p ∈ out, innerProduct query v ≤ p.2)) ∧
    (∃ s0 ids, VectorIndex.new 2 = Except.ok s0 ∧
      s0.add_vectors [[1, 0], [0, 1], [9/10, 1/10]] = (Except.ok ids, exIndex) ∧
      exIndex.search [1, 0] 2 =
        Except.ok [((0 : Int), (1 : F)), ((2 : Int), (9/10 : F))]) := by
  constructor
  · intro self query k h
    refine ⟨_, search_of_valid self query k h, ?_,
      search_out_sorted self query k, search_out_topk self query k⟩
    exact fun p hp => search_out_entries self query k p hp
  · exact ⟨_, _, new_eq 2, exIndex_add, exIndex_search⟩

/-- C6: whenever two returned entries have exactly equal scores, the one with
the lower ID comes first, and the search result is a deterministic function of
the observable index state and the query. -/
theorem claim_C6 :
    (∀ (self : VectorIndex) (query : List F) (k : ℕ) (out : List (Int × F)),
      self.search query k = Except.ok out →
      ∀ (i j : ℕ) (hi : i < out.length) (hj : j < out.length), i < j →
        (out.get ⟨i, hi⟩).2 = (out.get ⟨j, hj⟩).2 →
        (out.get ⟨i, hi⟩).1 < (out.get ⟨j, hj⟩).1) ∧
    (∀ (s1 s2 : VectorIndex) (query : List F) (k : ℕ),
      s1.index.vectors = s2.index.vectors → s1.dimension = s2.dimension →
      s1.search query k = s2.search query k) := by
  constructor
  · intro self query k out hok i j hi hj hij
    have hvalid : query.length = self.dimension := by
      by_contra hne
      rw [search_of_invalid self query k hne] at hok
      cases hok
    rw [search_of_valid self query k hvalid] at hok
    injection hok with hout
    subst hout
    intro heq
    exact search_out_tiebreak self query k i j hi hj hij heq
  · intro s1 s2 query k hv hdim
    rw [VectorIndex.search, VectorIndex.search, hdim]
    by_cases h : query.length = s2.dimension
    · rw [if_neg (by omega), if_neg (by omega)]
      simp [IndexImpl.searchImpl, IndexImpl.ranked, hv]
    · rw [if_pos (by omega), if_pos (by omega)]

/-- C8: `reset()` empties the index while preserving the dimension and the
metric, and ID numbering restarts at 0 on the next `add_vectors` call. -/
theorem claim_C8 (self : VectorIndex) (vectors : List (List F))
    (hval : ∀ v ∈ vectors, v.length = self.dimension)
    (hinv : self.index.d = self.dimension) (hd : 0 < self.dimension) :
    self.reset.index.ntotal = 0 ∧
    self.reset.dimension = self.dimension ∧
    self.reset.index.d = self.index.d ∧
    self.reset.index.metric = self.index.metric ∧
    (self.reset.add_vectors vectors).1 =
      Except.ok ((List.range vectors.length).map (fun i : ℕ => (i : Int))) := by
  refine ⟨rfl, rfl, rfl, rfl, ?_⟩
  rw [add_vectors_of_valid self.reset vectors hval hinv hd]
  simp [VectorIndex.reset, IndexImpl.reset, IndexImpl.ntotal]

theorem claim_C8_witness :
    exIndex.reset.index.ntotal = 0 ∧
    exIndex.reset.dimension = exIndex.dimension ∧
    exIndex.reset.index.d = exIndex.index.d ∧
    exIndex.reset.index.metric = exIndex.index.metric ∧
    (exIndex.reset.add_vectors [[1, 1], [2, 3]]).1 =
      Except.ok ((List.range ([[1, 1], [2, 3]] : List (List F)).length).map
        (fun i : ℕ => (i : Int))) :=
  claim_C8 exIndex [[1, 1], [2, 3]] (by decide) (by rfl) (by decide)

/-- C10: the cached `dimension` field always equals the inner index's
dimension — established at construction and on load (from the file header),
preserved by every operation — and the dimension validation of both
`add_vectors` and `search` is performed exactly against this cached field. -/
theorem claim_C10 :
    (∀ self : VectorIndex, Reachable self → self.dimension = self.index.d) ∧
    (∀ (d : ℕ) (self : VectorIndex), VectorIndex.new d = Except.ok self →
      self.dimension = self.index.d ∧ self.dimension = d) ∧
    (∀ (f : IndexFile) (self : VectorIndex), VectorIndex.load f = Except.ok self →
      self.dimension = self.index.d ∧ self.dimension = f.fileDimension) ∧
    (∀ (self : VectorIndex) (query : List F) (k : ℕ),
      (∃ g e, self.search query k =
        Except.error (PyErr.queryDimensionMismatch g e)) ↔
        query.length ≠ self.dimension) ∧
    (∀ (self : VectorIndex) (vectors : List (List F)),
      (∃ j g e, (self.add_vectors vectors).1 =
        Except.error (PyErr.vectorDimensionMismatch j g e)) ↔
        ¬ ∀ v ∈ vectors, v.length = self.dimension) := by
  refine ⟨reachable_dim_cache, ?_, ?_, ?_, ?_⟩
  · intro d self h
    rw [new_eq] at h
    cases h
    exact ⟨rfl, rfl⟩
  · intro f self h
    rw [VectorIndex.load] at h
    cases hread : read_index f with
    | error e => rw [hread] at h; cases h
    | ok idx =>
      rw [hread] at h
      cases h
      refine ⟨rfl, ?_⟩
      rw [read_index] at hread
      by_cases hc : f.magic ≠ indexMagic ∨ f.version ≠ indexVersion ∨
          f.data.length ≠ f.count * f.fileDimension
      · rw [if_pos hc] at hread; cases hread
      · rw [if_neg hc] at hread
        injection hread with hidx
        rw [← hidx]
  · intro self query k
    constructor
    · rintro ⟨g, e, hge⟩ hcon
      rw [search_of_valid self query k hcon] at hge
      cases hge
    · intro hne
      exact ⟨query.length, self.dimension, search_of_invalid self query k hne⟩
  · intro self vectors
    constructor
    · rintro ⟨j, g, e, hj⟩ hall
      have hnone : validateDims self.dimension 0 vectors = none :=
        (validateDims_eq_none self.dimension 0 vectors).mpr hall
      rw [VectorIndex.add_vectors, hnone] at hj
      simp at hj
    · intro hbad
      obtain ⟨j, v, _, _, _, heq⟩ := add_vectors_of_invalid self vectors hbad
      exact ⟨j, v.length, self.dimension, by rw [heq]⟩

end Rainze
